import Mathlib

/-!
Shallow embedding of the query batching and caching layer
(`BatchQueryService` in `FORM_STANDARDIZATION_SUMMARY.md`, together with
`safeSetTimeout` from `shared/utils/TimerManager.js`) of the Foam-Fighters
repository, and proofs of the spec claims about it.

Conventions of the embedding:
* JavaScript `Map` objects become insertion-ordered association lists with
  unique keys (`mapGet` / `mapSet` / `mapDelete` mirror `get` / `set` /
  `delete`).
* JavaScript values that flow through the cache are modelled by `JsonValue`;
  the JavaScript `null` is `JsonValue.null`.
* `Date.now()` becomes an explicit `now : Int` argument threaded into every
  operation that reads the clock.
* The external Firestore client (`getDb()`) becomes a `DataStore` record of
  oracles; one oracle application is one data store round trip, counted in
  the `storeCalls` fields of the results.
* `async` functions become pure functions on an explicit service state;
  promise rejection becomes `Except StoreError`.
-/

/-- JavaScript values as they appear in query parameters and cached results. -/
inductive JsonValue where
  | str (s : String)
  | num (n : Int)
  | bool (b : Bool)
  | null
  | arr (elems : List JsonValue)
  | obj (fields : List (String × JsonValue))

/-- Escape of a string body as performed by `JSON.stringify` (quote and
backslash; control characters do not occur in the keys this layer builds). -/
def jsonEscape (s : String) : String :=
  s.data.foldl (fun acc c =>
    if c = '"' then acc ++ "\\\""
    else if c = '\\' then acc ++ "\\\\"
    else acc.push c) ""

/-- Serialization of a string value, as in `JSON.stringify`. -/
def jsonQuote (s : String) : String :=
  "\"" ++ jsonEscape s ++ "\""

mutual

/-- Model of `JSON.stringify`, restricted to the value shapes of `JsonValue`.
Object fields are serialized in their list (insertion) order, exactly as
`JSON.stringify` serializes property insertion order. -/
def jsonStringify : JsonValue → String
  | JsonValue.str s => jsonQuote s
  | JsonValue.num n => toString n
  | JsonValue.bool b => if b then "true" else "false"
  | JsonValue.null => "null"
  | JsonValue.arr elems => "[" ++ jsonStringifyElems elems ++ "]"
  | JsonValue.obj fields => "\x7b" ++ jsonStringifyFields fields ++ "\x7d"

/-- Comma-joined serialization of array elements. -/
def jsonStringifyElems : List JsonValue → String
  | [] => ""
  | [v] => jsonStringify v
  | v :: rest => jsonStringify v ++ "," ++ jsonStringifyElems rest

/-- Comma-joined serialization of object fields. -/
def jsonStringifyFields : List (String × JsonValue) → String
  | [] => ""
  | [kv] => jsonQuote kv.1 ++ ":" ++ jsonStringify kv.2
  | kv :: rest => jsonQuote kv.1 ++ ":" ++ jsonStringify kv.2 ++ ","
      ++ jsonStringifyFields rest

end

/-- The `Map.prototype.get` operation: the value stored under `k`, if any. -/
def mapGet {α : Type} : List (String × α) → String → Option α
  | [], _ => none
  | p :: rest, k => if p.1 = k then some p.2 else mapGet rest k

/-- The `Map.prototype.set` operation: overwrite in place if the key is present, otherwise
append (JavaScript maps keep insertion order). -/
def mapSet {α : Type} : List (String × α) → String → α → List (String × α)
  | [], k, v => [(k, v)]
  | p :: rest, k, v => if p.1 = k then (k, v) :: rest else p :: mapSet rest k v

/-- The `Map.prototype.delete` operation (on a unique-key map). -/
def mapDelete {α : Type} : List (String × α) → String → List (String × α)
  | [], _ => []
  | p :: rest, k => if p.1 = k then mapDelete rest k else p :: mapDelete rest k

/-- The JavaScript `String.prototype.startsWith` test, at character granularity. -/
def jsStartsWith (s pre : String) : Bool :=
  pre.data.isPrefixOf s.data

/-- Property read `queryParams[key]` on a JavaScript object modelled as an
association list. The default branch is unreachable in every use below
because the key is always drawn from `Object.keys` of the same object. -/
def jsGet (params : List (String × JsonValue)) (k : String) : JsonValue :=
  match mapGet params k with
  | some v => v
  | none => JsonValue.null

/-- The `Array.prototype.sort()` call on the key array returned by `Object.keys`:
a stable sort by the default lexicographic string comparison, modelled by
insertion sort (same sorted-stable-permutation observable behaviour). -/
def jsSortKeys (keys : List String) : List String :=
  List.insertionSort (fun a b => a ≤ b) keys

/-- Model of `BatchQueryService.generateCacheKey`: sort the parameter keys, rebuild
the object in sorted key order, and serialize. -/
def generateCacheKey (collection : String)
    (queryParams : List (String × JsonValue) := []) : String :=
  let sortedKeys := jsSortKeys (queryParams.map Prod.fst)
  let sortedParams := sortedKeys.map (fun k => (k, jsGet queryParams k))
  collection ++ ":" ++ jsonStringify (JsonValue.obj sortedParams)


/-- One cache slot: the stored value (the JavaScript `data` field, possibly
`null`) and the `Date.now()` at which it was written. -/
structure CacheEntry where
  data : JsonValue
  timestamp : Int

/-- The in-memory cache `this.cache` (a `Map` from canonical key strings to
entries). -/
abbrev Cache := List (String × CacheEntry)

/-- The configuration constant `this.CACHE_DURATION` (five minutes in milliseconds). -/
def CACHE_DURATION : Int := 5 * 60 * 1000

/-- The configuration constant `this.BATCH_DELAY` (milliseconds the batch window stays open). -/
def BATCH_DELAY : Int := 50

/-- The configuration constant `this.MAX_BATCH_SIZE` (maximum queries per batch). -/
def MAX_BATCH_SIZE : Nat := 500

/-- The configuration constant `this.CLEANUP_INTERVAL` (one minute in milliseconds). -/
def CLEANUP_INTERVAL : Int := 60 * 1000

/-- Model of `BatchQueryService.isCacheValid`: the check `Date.now() -
entry.timestamp < CACHE_DURATION`. -/
def isCacheValid (now : Int) (entry : CacheEntry) : Bool :=
  now - entry.timestamp < CACHE_DURATION

/-- Model of `BatchQueryService.getFromCache`: returns the stored data when the entry
is present and unexpired; an expired entry is deleted as a side effect; a
miss returns the JavaScript `null`. The returned pair is (returned value,
cache after the call). -/
def getFromCache (cache : Cache) (cacheKey : String) (now : Int) :
    JsonValue × Cache :=
  match mapGet cache cacheKey with
  | some entry =>
      if isCacheValid now entry then (entry.data, cache)
      else (JsonValue.null, mapDelete cache cacheKey)
  | none => (JsonValue.null, cache)

/-- Model of `BatchQueryService.setCache`: store data with the current timestamp. -/
def setCache (cache : Cache) (cacheKey : String) (data : JsonValue)
    (now : Int) : Cache :=
  mapSet cache cacheKey { data := data, timestamp := now }

/-- Model of `BatchQueryService.invalidateCollection`: collect every key that starts
with `collection + ":"`, delete those keys, and return the new cache with
the number of deleted entries. -/
def invalidateCollection (collection : String) (cache : Cache) :
    Cache × Nat :=
  let keysToDelete :=
    (cache.filter (fun e => jsStartsWith e.1 (collection ++ ":"))).map Prod.fst
  (keysToDelete.foldl (fun c k => mapDelete c k) cache, keysToDelete.length)

/-- The scan body of `BatchQueryService.startCacheCleanup` (`cleanup`):
collect expired keys (`now - timestamp >= CACHE_DURATION`) and delete them,
returning the cleaned cache and the number of evicted entries. -/
def cleanupScan (now : Int) (cache : Cache) : Cache × Nat :=
  let expiredKeys :=
    (cache.filter (fun e => CACHE_DURATION ≤ now - e.2.timestamp)).map Prod.fst
  (expiredKeys.foldl (fun c k => mapDelete c k) cache, expiredKeys.length)

/-- The opaque error of a failing scan, for the hypothetical in which the
cleanup body throws. -/
structure ScanError where
  message : String

/-- Observable outcome of one periodic cleanup tick. -/
structure TickOutcome where
  reported : Bool
  nextScheduled : Bool
  cache : Cache

/-- One tick of the recurring cleanup timer, as composed by the source:
`startCacheCleanup` arms `safeSetTimeout(() => { cleanup();
this.startCacheCleanup(); }, CLEANUP_INTERVAL)`, and `safeSetTimeout`
(TimerManager.js) runs the callback inside `try { callback(); } catch
(error) { console.error(...) }`. The callback first runs the scan; on
success it re-enters `startCacheCleanup`, which runs the scan once more
immediately and then arms the next timeout. A scan that throws is caught by
the `safeSetTimeout` wrapper (`reported := true`), and because the throw
aborts the rest of the callback, the re-arming line is never reached
(`nextScheduled := false`). The scan is abstracted to an arbitrary
`Cache → Except ScanError Cache` so that the hypothetical "the scan throws"
is expressible. -/
def cleanupTimerTick (scan : Cache → Except ScanError Cache)
    (cache : Cache) : TickOutcome :=
  match scan cache with
  | Except.error _ => { reported := true, nextScheduled := false, cache := cache }
  | Except.ok cache1 =>
      match scan cache1 with
      | Except.error _ =>
          { reported := true, nextScheduled := false, cache := cache1 }
      | Except.ok cache2 =>
          { reported := false, nextScheduled := true, cache := cache2 }

/-- The strict comparison `value !== null` of JavaScript. -/
def JsonValue.isNotNull : JsonValue → Bool
  | JsonValue.null => false
  | _ => true

/-- A data store failure (promise rejection from the Firestore client). -/
structure StoreError where
  message : String

/-- The fields of a stored document (what `doc.data()` spreads). -/
abbrev DocFields := List (String × JsonValue)

/-- The external Data Store collaborator (`getDb()`): a point lookup per
(collection, id), a multi-get aligned with its argument list, and a
filtered/sorted/paginated collection query that receives the query
parameters unchanged. Each oracle application is one store round trip. -/
structure DataStore where
  getDoc : String → String → Except StoreError (Option DocFields)
  getAll : List (String × String) → Except StoreError (List (Option DocFields))
  runQuery : String → List (String × JsonValue) → Except StoreError JsonValue

/-- The document projection built by the executor: `doc.exists ? { id:
doc.id, ...doc.data() } : null`. -/
def docResultOf (docId : String) (doc : Option DocFields) : JsonValue :=
  match doc with
  | some fields => JsonValue.obj (("id", JsonValue.str docId) :: fields)
  | none => JsonValue.null

/-- Result of a single executor call: the settled promise, the cache after
the call, and how many data store round trips the call performed. -/
structure ExecResult where
  outcome : Except StoreError JsonValue
  cache : Cache
  storeCalls : Nat

/-- Model of `BatchQueryService.getDocument`: check the cache (a hit is any returned
value different from `null`), otherwise fetch the document, cache the
projection (including the `null` projection of an absent document) and
return it; a store error propagates and writes nothing. -/
def getDocument (store : DataStore) (now : Int) (cache : Cache)
    (collection docId : String) (useCache : Bool := true) : ExecResult :=
  let cacheKey := generateCacheKey collection [("docId", JsonValue.str docId)]
  let (cachedData, cache) :=
    if useCache then getFromCache cache cacheKey now
    else (JsonValue.null, cache)
  if cachedData.isNotNull then
    { outcome := Except.ok cachedData, cache := cache, storeCalls := 0 }
  else
    match store.getDoc collection docId with
    | Except.error e =>
        { outcome := Except.error e, cache := cache, storeCalls := 1 }
    | Except.ok doc =>
        let result := docResultOf docId doc
        { outcome := Except.ok result
          cache := if useCache then setCache cache cacheKey result now else cache
          storeCalls := 1 }

/-- Model of `BatchQueryService.getCollection`: check the cache, otherwise run the
collection query (the parameter bag is passed through to the store
unchanged), cache the result array and return it; a store error propagates
and writes nothing. -/
def getCollection (store : DataStore) (now : Int) (cache : Cache)
    (collection : String) (queryParams : List (String × JsonValue) := [])
    (useCache : Bool := true) : ExecResult :=
  let cacheKey := generateCacheKey collection queryParams
  let (cachedData, cache) :=
    if useCache then getFromCache cache cacheKey now
    else (JsonValue.null, cache)
  if cachedData.isNotNull then
    { outcome := Except.ok cachedData, cache := cache, storeCalls := 0 }
  else
    match store.runQuery collection queryParams with
    | Except.error e =>
        { outcome := Except.error e, cache := cache, storeCalls := 1 }
    | Except.ok result =>
        { outcome := Except.ok result
          cache := if useCache then setCache cache cacheKey result now else cache
          storeCalls := 1 }

/-- Result of running one queued query function at flush time. -/
structure QueryRunResult where
  outcome : Except StoreError JsonValue
  cache : Cache
  storeCalls : Nat

/-- A queued query function (`queryFn`): a closure executed at flush time
against the clock and the cache of that moment. -/
def QueryFn : Type := Int → Cache → QueryRunResult

/-- The mutable state of the `BatchQueryService` singleton. Waiters (the
`resolve` / `reject` continuation pairs) are identified by the order in
which callers registered (`nextWaiter` numbers them); `flushes` counts the
invocations of `processBatchQueue`. -/
structure BQState where
  cache : Cache
  pendingQueries : List (String × List Nat)
  batchQueue : List (String × QueryFn)
  batchTimeout : Bool
  nextWaiter : Nat
  flushes : Nat

/-- The state of a freshly constructed service. -/
def initState : BQState :=
  { cache := [], pendingQueries := [], batchQueue := [], batchTimeout := false
    nextWaiter := 0, flushes := 0 }

/-- Model of `BatchQueryService.queueQuery`: join the existing pending group for the
key if there is one; otherwise create a new group, record the query
function in the batch queue, and arm the batch timer if none is armed.
Returns the new state and the identifier of the registered waiter. -/
def queueQuery (st : BQState) (queryFn : QueryFn) (cacheKey : String) :
    BQState × Nat :=
  let w := st.nextWaiter
  let st := { st with nextWaiter := w + 1 }
  match mapGet st.pendingQueries cacheKey with
  | some ws =>
      ({ st with pendingQueries := mapSet st.pendingQueries cacheKey (ws ++ [w]) }, w)
  | none =>
      ({ st with
          pendingQueries := mapSet st.pendingQueries cacheKey [w]
          batchQueue := mapSet st.batchQueue cacheKey queryFn
          batchTimeout := true }, w)

/-- Model of `BatchQueryService.processBatchQueue` (one fold step in
`flushStep`): drain the batch queue, clear the
timer handle, and, for every queued (key, queryFn), look up and remove the
pending group for the key, run the query function, and settle every waiter
of that group with its single outcome. Returns the new state, the list of
(waiter, outcome) settlements, and the total number of store round trips
performed by the flush. The single-threaded event-loop interleaving is
linearized in queue order. -/
def flushStep (now : Int)
    (acc : BQState × List (Nat × Except StoreError JsonValue) × Nat)
    (q : String × QueryFn) :
    BQState × List (Nat × Except StoreError JsonValue) × Nat :=
  let st := acc.1
  let pendingCallbacks := (mapGet st.pendingQueries q.1).getD []
  let st := { st with pendingQueries := mapDelete st.pendingQueries q.1 }
  let r := q.2 now st.cache
  ({ st with cache := r.cache },
    acc.2.1 ++ pendingCallbacks.map (fun w => (w, r.outcome)),
    acc.2.2 + r.storeCalls)

def processBatchQueue (now : Int) (st : BQState) :
    BQState × List (Nat × Except StoreError JsonValue) × Nat :=
  let queries := st.batchQueue
  let st0 := { st with batchQueue := ([] : List (String × QueryFn))
                       batchTimeout := false
                       flushes := st.flushes + 1 }
  queries.foldl (flushStep now) (st0, [], 0)

/-- The closure built inside `BatchQueryService.smartQuery`: run
`getCollection` with caching disabled, then cache the result itself when
`useCache` is set. It performs exactly the store round trips of the inner
`getCollection` call. -/
def smartQueryFn (store : DataStore) (collection : String)
    (queryParams : List (String × JsonValue)) (useCache : Bool) : QueryFn :=
  fun now cache =>
    let cacheKey := generateCacheKey collection queryParams
    let inner := getCollection store now cache collection queryParams false
    match inner.outcome with
    | Except.ok result =>
        { outcome := Except.ok result
          cache := if useCache then setCache inner.cache cacheKey result now
                   else inner.cache
          storeCalls := inner.storeCalls }
    | Except.error e =>
        { outcome := Except.error e, cache := inner.cache
          storeCalls := inner.storeCalls }

/-- What a `smartQuery` call hands back: a settled value (cache hit, or the
direct non-batched path) or a registered waiter in the batch window. -/
inductive SmartOutcome where
  | immediate (outcome : Except StoreError JsonValue)
  | queued (waiter : Nat)

/-- Model of `BatchQueryService.smartQuery`: cache check first (any value other than
`null` is a hit and is returned at once); on miss, either register the
query closure in the batch window (`useBatching = true`) or run the closure
directly. -/
def smartQuery (store : DataStore) (now : Int) (st : BQState)
    (collection : String) (queryParams : List (String × JsonValue) := [])
    (useCache : Bool := true) (useBatching : Bool := true) :
    BQState × SmartOutcome :=
  let cacheKey := generateCacheKey collection queryParams
  let (cachedData, cache) :=
    if useCache then getFromCache st.cache cacheKey now
    else (JsonValue.null, st.cache)
  let st := { st with cache := cache }
  if cachedData.isNotNull then
    (st, SmartOutcome.immediate (Except.ok cachedData))
  else
    let queryFn := smartQueryFn store collection queryParams useCache
    if useBatching then
      let (st, w) := queueQuery st queryFn cacheKey
      (st, SmartOutcome.queued w)
    else
      let r := queryFn now st.cache
      ({ st with cache := r.cache }, SmartOutcome.immediate r.outcome)

/-- Model of `BatchQueryService.clearCache`: empty the cache map and nothing else. -/
def clearCache (st : BQState) : BQState :=
  { st with cache := [] }

/-- One entry of the `requests` argument of `batchGetDocuments`. -/
structure DocRequest where
  collection : String
  docId : String
deriving DecidableEq

/-- The `Array.prototype.indexOf` operation: index of the first equal element (every use
in the source passes an element of the array, so the not-found branch is
unreachable there). -/
def jsIndexOf : List DocRequest → DocRequest → Nat
  | [], _ => 0
  | x :: rest, r => if x = r then 0 else jsIndexOf rest r + 1

/-- Assignment `results[i] = v` on an array with a slot for every request. -/
def listSet {α : Type} : List α → Nat → α → List α
  | [], _, _ => []
  | _ :: rest, 0, v => v :: rest
  | x :: rest, n + 1, v => x :: listSet rest n v

/-- The cache-check loop of `batchGetDocuments`: cached hits are written to
their request index, misses are collected (with their original index) for
the chunked multi-get phase. -/
def collectUncached (now : Int) (useCache : Bool) (all : List DocRequest) :
    List DocRequest → Cache → List (Option JsonValue) →
    Cache × List (Option JsonValue) × List (DocRequest × Nat)
  | [], cache, results => (cache, results, [])
  | req :: rest, cache, results =>
      let cacheKey :=
        generateCacheKey req.collection [("docId", JsonValue.str req.docId)]
      let (cachedData, cache') :=
        if useCache then getFromCache cache cacheKey now
        else (JsonValue.null, cache)
      if cachedData.isNotNull then
        let results' := listSet results (jsIndexOf all req) (some cachedData)
        collectUncached now useCache all rest cache' results'
      else
        let out := collectUncached now useCache all rest cache' results
        (out.1, out.2.1, (req, jsIndexOf all req) :: out.2.2)

/-- The `for (let i = 0; i < uncachedRequests.length; i += batchSize)`
slicing, with fuel bounded by the list length (the step is positive in
every call below). -/
def chunksOfAux {α : Type} (n : Nat) : Nat → List α → List (List α)
  | 0, _ => []
  | _, [] => []
  | fuel + 1, l => l.take n :: chunksOfAux n fuel (l.drop n)

/-- The list of slices `uncached.slice(i, i + n)`. -/
def chunksOf {α : Type} (n : Nat) (l : List α) : List (List α) :=
  chunksOfAux n l.length l

/-- One chunk of the multi-get phase of `batchGetDocuments`: issue
`db.getAll` for the chunk; on success write each projection to its original
index and cache it; on failure (the `catch` branch) write `null` to every
index of the chunk and touch neither the cache nor the output further. -/
def processChunk (store : DataStore) (now : Int) (useCache : Bool)
    (acc : Cache × List (Option JsonValue)) (chunk : List (DocRequest × Nat)) :
    Cache × List (Option JsonValue) :=
  let refs := chunk.map (fun rq => (rq.1.collection, rq.1.docId))
  match store.getAll refs with
  | Except.ok docs =>
      (docs.zip chunk).foldl
        (fun acc2 dq =>
          let result := docResultOf dq.2.1.docId dq.1
          let cacheKey := generateCacheKey dq.2.1.collection
            [("docId", JsonValue.str dq.2.1.docId)]
          ((if useCache then setCache acc2.1 cacheKey result now else acc2.1),
            listSet acc2.2 dq.2.2 (some result)))
        acc
  | Except.error _ =>
      (acc.1,
        chunk.foldl (fun rs rq => listSet rs rq.2 (some JsonValue.null)) acc.2)

/-- Model of `BatchQueryService.batchGetDocuments`: consult the cache per request,
then fetch the misses chunk by chunk (`batchSize = min(MAX_BATCH_SIZE,
misses)`) with one multi-get round trip per chunk. The function itself
never rejects on a chunk failure: the `catch` inside the loop substitutes
`null` results for the failed chunk. Returns the settled promise, the final
cache, and the number of multi-get round trips issued. -/
def batchGetDocuments (store : DataStore) (now : Int) (cache : Cache)
    (requests : List DocRequest) (useCache : Bool := true) :
    Except StoreError (List (Option JsonValue)) × Cache × Nat :=
  let results0 : List (Option JsonValue) := List.replicate requests.length none
  let (cache, results, uncached) :=
    collectUncached now useCache requests requests cache results0
  if uncached.isEmpty then (Except.ok results, cache, 0)
  else
    let batchSize := min MAX_BATCH_SIZE uncached.length
    let chunks := chunksOf batchSize uncached
    let (cache, results) :=
      chunks.foldl (processChunk store now useCache) (cache, results)
    (Except.ok results, cache, chunks.length)

/-- A sequence of `queueQuery` registrations within one window. -/
def enqueueAll (st : BQState) (items : List (String × QueryFn)) : BQState :=
  items.foldl (fun st kq => (queueQuery st kq.2 kq.1).1) st

/-- Iteration of `n` back-to-back `smartQuery` calls with identical
arguments, all issued before the window flushes. -/
def smartQueryN (store : DataStore) (now : Int) (collection : String)
    (queryParams : List (String × JsonValue)) : Nat → BQState → BQState
  | 0, st => st
  | n + 1, st =>
      smartQueryN store now collection queryParams n
        (smartQuery store now st collection queryParams true true).1

/-- A store in which every document lookup reports the document absent. -/
def ghostStore : DataStore :=
  { getDoc := fun _ _ => Except.ok none
    getAll := fun refs => Except.ok (refs.map (fun _ => none))
    runQuery := fun _ _ => Except.ok (JsonValue.arr []) }

/-- A store whose every call fails. -/
def downStore : DataStore :=
  { getDoc := fun _ _ => Except.error { message := "unavailable" }
    getAll := fun _ => Except.error { message := "unavailable" }
    runQuery := fun _ _ => Except.error { message := "unavailable" } }

/-- A store answering collection queries for collection "a" and failing for
every other collection. -/
def abStore : DataStore :=
  { getDoc := fun _ _ => Except.ok none
    getAll := fun refs => Except.ok (refs.map (fun _ => none))
    runQuery := fun c _ =>
      if c = "a" then Except.ok (JsonValue.arr [JsonValue.str "row"])
      else Except.error { message := "unavailable" } }

/-- The hypothetical throwing cleanup scan of claim C4. -/
def throwingScan : Cache → Except ScanError Cache :=
  fun _ => Except.error { message := "scan failed" }

/-- An arbitrary query function used for registrations whose execution never
happens in the scenario under study. -/
def dummyFn : QueryFn :=
  fun _ cache =>
    { outcome := Except.ok JsonValue.null, cache := cache, storeCalls := 1 }

/-- The i-th of 500 pairwise distinct cache keys. -/
def bigKey (i : Nat) : String :=
  String.mk (List.replicate (i + 1) 'k')

/-- MAX_BATCH_SIZE distinct registrations inside one batch window. -/
def bigItems : List (String × QueryFn) :=
  (List.range MAX_BATCH_SIZE).map (fun i => (bigKey i, dummyFn))

/-- A service state with one pending group of one waiter for the collection
query on "a", a non-empty cache, and the batch timer armed: the state in
which claim C10 calls clearCache. -/
def stC10 : BQState :=
  { cache := [("quotes:x", { data := JsonValue.arr [], timestamp := 0 })]
    pendingQueries := [(generateCacheKey "a" [], [0])]
    batchQueue := [(generateCacheKey "a" [], smartQueryFn abStore "a" [] true)]
    batchTimeout := true
    nextWaiter := 1
    flushes := 0 }

theorem mapGet_mapSet_self {α : Type} (m : List (String × α)) (k : String)
    (v : α) : mapGet (mapSet m k v) k = some v := by
  induction m with
  | nil => simp [mapSet, mapGet]
  | cons p rest ih =>
      by_cases h : p.1 = k
      · simp [mapSet, mapGet, h]
      · simp [mapSet, mapGet, h, ih]

theorem mapGet_mapSet_ne {α : Type} (m : List (String × α)) {k k' : String}
    (v : α) (h : k' ≠ k) : mapGet (mapSet m k v) k' = mapGet m k' := by
  induction m with
  | nil => simp [mapSet, mapGet, Ne.symm h]
  | cons p rest ih =>
      by_cases hp : p.1 = k
      · have h2 : ¬ p.1 = k' := by rw [hp]; exact Ne.symm h
        simp [mapSet, hp, mapGet, Ne.symm h, h2]
      · simp only [mapSet, if_neg hp, mapGet]
        by_cases hp' : p.1 = k'
        · simp [hp']
        · simp [hp', ih]

theorem mapSet_length_of_get_none {α : Type} (m : List (String × α))
    {k : String} (v : α) (h : mapGet m k = none) :
    (mapSet m k v).length = m.length + 1 := by
  induction m with
  | nil => simp [mapSet]
  | cons p rest ih =>
      simp only [mapGet] at h
      by_cases hp : p.1 = k
      · simp [hp] at h
      · simp only [mapSet, if_neg hp, List.length_cons]
        rw [ih (by simpa [hp] using h)]

theorem mapGet_mapDelete_self {α : Type} (m : List (String × α)) (k : String) :
    mapGet (mapDelete m k) k = none := by
  induction m with
  | nil => simp [mapDelete, mapGet]
  | cons p rest ih =>
      by_cases h : p.1 = k
      · simp [mapDelete, h, ih]
      · simp [mapDelete, mapGet, h, ih]

theorem mapGet_mapDelete_ne {α : Type} (m : List (String × α)) {k k' : String}
    (h : k' ≠ k) : mapGet (mapDelete m k) k' = mapGet m k' := by
  induction m with
  | nil => simp [mapDelete]
  | cons p rest ih =>
      by_cases hp : p.1 = k
      · have h2 : ¬ p.1 = k' := by rw [hp]; exact Ne.symm h
        simp [mapDelete, hp, mapGet, h2, Ne.symm h, ih]
      · simp only [mapDelete, if_neg hp, mapGet]
        by_cases hp' : p.1 = k'
        · simp [hp']
        · simp [hp', ih]

theorem mapDelete_of_get_none {α : Type} (m : List (String × α))
    {k : String} (h : mapGet m k = none) : mapDelete m k = m := by
  induction m with
  | nil => simp [mapDelete]
  | cons p rest ih =>
      simp only [mapGet] at h
      by_cases hp : p.1 = k
      · simp [hp] at h
      · simp only [mapDelete, if_neg hp]
        rw [ih (by simpa [hp] using h)]

theorem mapDelete_eq_filter {α : Type} (m : List (String × α)) (k : String) :
    mapDelete m k = m.filter (fun p => decide (p.1 ≠ k)) := by
  induction m with
  | nil => simp [mapDelete]
  | cons p rest ih =>
      by_cases hp : p.1 = k
      · simp [mapDelete, hp, ih]
      · simp [mapDelete, hp, ih]

theorem listSet_length {α : Type} (l : List α) (i : Nat) (v : α) :
    (listSet l i v).length = l.length := by
  induction l generalizing i with
  | nil => simp [listSet]
  | cons x rest ih =>
      cases i with
      | zero => simp [listSet]
      | succ n => simp [listSet, ih]

theorem listSet_getElem? {α : Type} (l : List α) (i j : Nat) (v : α) :
    (listSet l i v)[j]? =
      if i = j then (if j < l.length then some v else none) else l[j]? := by
  induction l generalizing i j with
  | nil => simp [listSet]
  | cons x rest ih =>
      cases i with
      | zero =>
          cases j with
          | zero => simp [listSet]
          | succ m => simp [listSet]
      | succ n =>
          cases j with
          | zero => simp [listSet]
          | succ m =>
              simp only [listSet, List.getElem?_cons_succ, ih, List.length_cons]
              by_cases hij : n = m
              · simp [hij]
              · simp [hij, fun hh : n + 1 = m + 1 => hij (Nat.succ_injective hh)]

theorem foldl_listSet_getElem? {α : Type} (is : List Nat)
    (l : List α) (v : α) (j : Nat) :
    (is.foldl (fun rs i => listSet rs i v) l)[j]? =
      if j ∈ is ∧ j < l.length then some v else l[j]? := by
  induction is generalizing l with
  | nil => simp
  | cons i rest ih =>
      simp only [List.foldl_cons, ih, listSet_length, listSet_getElem?]
      by_cases hmem : j ∈ rest
      · by_cases hj : j < l.length
        · simp [hmem, hj]
        · simp only [hmem, true_and, hj, and_false, if_false]
          split
          · exact (List.getElem?_eq_none (by omega)).symm
          · rfl
      · by_cases hij : i = j
        · subst hij
          by_cases hj : i < l.length <;> simp [hmem, hj, List.mem_cons] <;> omega
        · simp [hmem, hij, List.mem_cons, Ne.symm hij]

theorem foldl_listSet_length {α : Type} (is : List Nat) (l : List α) (v : α) :
    (is.foldl (fun rs i => listSet rs i v) l).length = l.length := by
  induction is generalizing l with
  | nil => rfl
  | cons i rest ih => simp [ih, listSet_length]

theorem foldl_mapDelete_eq_filter {α : Type} (ks : List String)
    (m : List (String × α)) :
    ks.foldl (fun c k => mapDelete c k) m =
      m.filter (fun p => !(ks.contains p.1)) := by
  induction ks generalizing m with
  | nil => simp
  | cons k rest ih =>
      rw [List.foldl_cons, ih, mapDelete_eq_filter, List.filter_filter]
      apply List.filter_congr
      intro x _
      cases hxa : (x.1 == k) <;> cases hxb : rest.contains x.1 <;>
        simp_all [List.contains_cons]

/-- Claim C1 (code_bug evaluation). For a document the store reports absent,
the first `getDocument` call does cache the `null` not-found outcome (one
store round trip, and the canonical key maps to a `null` entry afterwards),
but a second call for the same collection and id well inside the TTL still
performs a store round trip (`storeCalls = 1`, not `0`): `getFromCache`
returns the cached `null`, and `getDocument` cannot distinguish it from a
cache miss, so the not-found outcome is never served from the cache. -/
theorem c1_cached_null_still_hits_store :
    (getDocument ghostStore 0 [] "users" "ghost" true).storeCalls = 1 ∧
    mapGet (getDocument ghostStore 0 [] "users" "ghost" true).cache
        (generateCacheKey "users" [("docId", JsonValue.str "ghost")]) =
      some { data := JsonValue.null, timestamp := 0 } ∧
    (getDocument ghostStore 1000
        (getDocument ghostStore 0 [] "users" "ghost" true).cache
        "users" "ghost" true).storeCalls = 1 :=
  ⟨rfl, rfl, rfl⟩

/-- Claim C4 (code_bug evaluation). A cleanup tick whose scan throws is
reported (the `safeSetTimeout` wrapper catches it), but the next tick is
NOT scheduled: the throw aborts the callback before the rescheduling call,
so the recurring cleanup loop terminates instead of firing again one
interval later. -/
theorem c4_throwing_scan_kills_timer_loop :
    (cleanupTimerTick throwingScan []).reported = true ∧
    (cleanupTimerTick throwingScan []).nextScheduled = false :=
  ⟨rfl, rfl⟩

/-- Claim C7: a cache entry written at time T is returned unchanged (with no
cache mutation) by any read at a time strictly before T + TTL, and any read
at a time at or past T + TTL returns the not-found marker and deletes the
entry from the cache as a side effect of the read. -/
theorem c7_ttl_expiry (cache : Cache) (k : String) (v : JsonValue) (T t : Int) :
    (t < T + CACHE_DURATION →
      getFromCache (setCache cache k v T) k t = (v, setCache cache k v T)) ∧
    (T + CACHE_DURATION ≤ t →
      getFromCache (setCache cache k v T) k t =
        (JsonValue.null, mapDelete (setCache cache k v T) k) ∧
      mapGet (getFromCache (setCache cache k v T) k t).2 k = none) := by
  have hget : mapGet (setCache cache k v T) k =
      some { data := v, timestamp := T } := mapGet_mapSet_self ..
  constructor
  · intro ht
    simp only [CACHE_DURATION] at ht
    have hv : isCacheValid t { data := v, timestamp := T } = true := by
      simp only [isCacheValid, CACHE_DURATION, decide_eq_true_eq]
      omega
    simp [getFromCache, hget, hv]
  · intro ht
    simp only [CACHE_DURATION] at ht
    have hv : isCacheValid t { data := v, timestamp := T } = false := by
      simp only [isCacheValid, CACHE_DURATION, decide_eq_false_iff_not]
      omega
    simp [getFromCache, hget, hv, mapGet_mapDelete_self]

/-- Witness for C7 at concrete inputs: a read 10 ms after the write returns
the stored value, and a read at the TTL boundary (300000 ms) reports the
entry absent and removes it. -/
theorem c7_ttl_expiry_witness :
    getFromCache (setCache [] "k" (JsonValue.str "x") 0) "k" 10 =
      (JsonValue.str "x", setCache [] "k" (JsonValue.str "x") 0) ∧
    getFromCache (setCache [] "k" (JsonValue.str "x") 0) "k" 300000 =
      (JsonValue.null, mapDelete (setCache [] "k" (JsonValue.str "x") 0) "k") :=
  ⟨(c7_ttl_expiry [] "k" (JsonValue.str "x") 0 10).1 (by decide),
   ((c7_ttl_expiry [] "k" (JsonValue.str "x") 0 300000).2 (by decide)).1⟩

/-- Claim C9: `invalidateCollection c` keeps exactly the cache entries whose
key does not start with `c ++ ":"` (in particular every entry of any other
key prefix survives unchanged, in order), and every canonical key that
`generateCacheKey` builds for collection `c` — document lookups
(`docId` parameter) and collection queries alike — does start with
`c ++ ":"`, so both kinds of entries of collection `c` are covered. -/
theorem c9_invalidate_collection_scope (collection : String) (cache : Cache) :
    (invalidateCollection collection cache).1 =
      cache.filter (fun e => !(jsStartsWith e.1 (collection ++ ":"))) ∧
    ∀ queryParams : List (String × JsonValue),
      jsStartsWith (generateCacheKey collection queryParams)
        (collection ++ ":") = true := by
  constructor
  · show ((cache.filter
        (fun e => jsStartsWith e.1 (collection ++ ":"))).map Prod.fst).foldl
          (fun c k => mapDelete c k) cache = _
    rw [foldl_mapDelete_eq_filter]
    apply List.filter_congr
    intro x hx
    have key : (((cache.filter
        (fun e => jsStartsWith e.1 (collection ++ ":"))).map Prod.fst).contains x.1)
        = jsStartsWith x.1 (collection ++ ":") := by
      rw [Bool.eq_iff_iff]
      constructor
      · intro hc
        have hmem := List.elem_iff.mp hc
        rcases List.mem_map.mp hmem with ⟨y, hy, hyx⟩
        rcases List.mem_filter.mp hy with ⟨_, hys⟩
        rwa [hyx] at hys
      · intro hs
        exact List.elem_iff.mpr (List.mem_map_of_mem _ (List.mem_filter.mpr ⟨hx, hs⟩))
    rw [key]
  · intro queryParams
    show jsStartsWith (collection ++ ":" ++ _) (collection ++ ":") = true
    simp only [jsStartsWith, List.isPrefixOf_iff_prefix, String.data_append]
    exact List.prefix_append _ _

theorem mapGet_eq_of_perm {α : Type} :
    ∀ {l₁ l₂ : List (String × α)}, List.Perm l₁ l₂ →
      (l₁.map Prod.fst).Nodup → ∀ k, mapGet l₁ k = mapGet l₂ k := by
  intro l₁ l₂ h
  induction h with
  | nil => intro _ _; rfl
  | cons x h ih =>
      intro nd k
      simp only [List.map_cons, List.nodup_cons] at nd
      simp only [mapGet]
      by_cases hx : x.1 = k
      · simp [hx]
      · simp [hx, ih nd.2 k]
  | swap x y l =>
      intro nd k
      simp only [List.map_cons, List.nodup_cons, List.mem_cons] at nd
      simp only [mapGet]
      by_cases hy : y.1 = k <;> by_cases hx : x.1 = k
      · exact absurd (hy.trans hx.symm) (fun hh => nd.1 (Or.inl hh))
      · simp [hy, hx]
      · simp [hy, hx]
      · simp [hy, hx]
  | trans h1 h2 ih1 ih2 =>
      intro nd k
      have nd2 := (List.Perm.nodup_iff (h1.map Prod.fst)).mp nd
      rw [ih1 nd k, ih2 nd2 k]

/-- Claim C8: for one collection and two query parameter objects holding
exactly the same top-level key-value bindings in any insertion order
(a permutation of one another, with no duplicate keys), `generateCacheKey`
produces the identical canonical key string. -/
theorem c8_canonical_key_stable (collection : String)
    (p₁ p₂ : List (String × JsonValue)) (hperm : List.Perm p₁ p₂)
    (hnd : (p₁.map Prod.fst).Nodup) :
    generateCacheKey collection p₁ = generateCacheKey collection p₂ := by
  have hkeys : List.Perm (p₁.map Prod.fst) (p₂.map Prod.fst) :=
    hperm.map Prod.fst
  have hsorted : jsSortKeys (p₁.map Prod.fst) = jsSortKeys (p₂.map Prod.fst) :=
    List.eq_of_perm_of_sorted
      ((List.perm_insertionSort _ _).trans
        (hkeys.trans (List.perm_insertionSort _ _).symm))
      (List.sorted_insertionSort _ _) (List.sorted_insertionSort _ _)
  have hfun : (fun k => (k, jsGet p₁ k)) = (fun k => (k, jsGet p₂ k)) :=
    funext (fun k => by
      unfold jsGet
      rw [mapGet_eq_of_perm hperm hnd k])
  simp only [generateCacheKey]
  rw [hsorted, hfun]

/-- Witness for C8: the two insertion orders of
`(status: "new", limit: 10)` produce the same cache key. -/
theorem c8_canonical_key_stable_witness :
    generateCacheKey "inquiries"
        [("status", JsonValue.str "new"), ("limit", JsonValue.num 10)] =
      generateCacheKey "inquiries"
        [("limit", JsonValue.num 10), ("status", JsonValue.str "new")] :=
  c8_canonical_key_stable "inquiries" _ _
    (List.Perm.swap ("limit", JsonValue.num 10)
      ("status", JsonValue.str "new") [])
    (by decide)

theorem queueQuery_of_fresh (st : BQState) (fn : QueryFn) (k : String)
    (h : mapGet st.pendingQueries k = none) :
    (queueQuery st fn k).1 =
      { st with nextWaiter := st.nextWaiter + 1
                pendingQueries := mapSet st.pendingQueries k [st.nextWaiter]
                batchQueue := mapSet st.batchQueue k fn
                batchTimeout := true } := by
  simp [queueQuery, h]

theorem queueQuery_of_member (st : BQState) (fn : QueryFn) (k : String)
    (ws : List Nat) (h : mapGet st.pendingQueries k = some ws) :
    (queueQuery st fn k).1 =
      { st with nextWaiter := st.nextWaiter + 1
                pendingQueries := mapSet st.pendingQueries k
                  (ws ++ [st.nextWaiter]) } := by
  simp [queueQuery, h]

theorem queueQuery_timeout_mono (st : BQState) (fn : QueryFn) (k : String)
    (h : st.batchTimeout = true) :
    ((queueQuery st fn k).1).batchTimeout = true := by
  rcases hm : mapGet st.pendingQueries k with _ | ws <;>
    simp [queueQuery, hm, h]

theorem enqueueAll_timeout_mono :
    ∀ (items : List (String × QueryFn)) (st : BQState),
      st.batchTimeout = true → (enqueueAll st items).batchTimeout = true := by
  intro items
  induction items with
  | nil => intro st h; exact h
  | cons kq rest ih =>
      intro st h
      exact ih _ (queueQuery_timeout_mono st kq.2 kq.1 h)

/-- Claim C2 as amended: reaching the configured maximum batch size during a
window does NOT flush the window early. A sequence of `queueQuery`
registrations — here, any number of distinct keys new to the window —
performs no flush at all (`flushes` is unchanged, every registered key is
still queued afterwards) and merely arms the batch-delay timer; the queue
is only flushed when the timer fires and runs `processBatchQueue`.
`MAX_BATCH_SIZE` plays no role in `queueQuery`. -/
theorem c2_no_early_flush_on_registration (st : BQState)
    (items : List (String × QueryFn))
    (hnd : (items.map Prod.fst).Nodup)
    (hfreshp : ∀ i ∈ items, mapGet st.pendingQueries i.1 = none)
    (hfreshq : ∀ i ∈ items, mapGet st.batchQueue i.1 = none) :
    (enqueueAll st items).flushes = st.flushes ∧
    (enqueueAll st items).batchQueue.length =
      st.batchQueue.length + items.length ∧
    (items ≠ [] → (enqueueAll st items).batchTimeout = true) := by
  induction items generalizing st with
  | nil => simp [enqueueAll]
  | cons kq rest ih =>
      simp only [List.map_cons, List.nodup_cons] at hnd
      have hp := hfreshp kq (List.mem_cons_self kq rest)
      have hq := hfreshq kq (List.mem_cons_self kq rest)
      have hstep : enqueueAll st (kq :: rest) =
          enqueueAll ({ st with nextWaiter := st.nextWaiter + 1
                                pendingQueries :=
                                  mapSet st.pendingQueries kq.1 [st.nextWaiter]
                                batchQueue := mapSet st.batchQueue kq.1 kq.2
                                batchTimeout := true }) rest := by
        simp only [enqueueAll, List.foldl_cons, queueQuery_of_fresh st kq.2 kq.1 hp]
      have hne : ∀ i ∈ rest, i.1 ≠ kq.1 := by
        intro i hi he
        exact hnd.1 (he ▸ List.mem_map_of_mem Prod.fst hi)
      have ihp : ∀ i ∈ rest,
          mapGet (mapSet st.pendingQueries kq.1 [st.nextWaiter]) i.1 = none := by
        intro i hi
        rw [mapGet_mapSet_ne _ _ (hne i hi)]
        exact hfreshp i (List.mem_cons_of_mem kq hi)
      have ihq : ∀ i ∈ rest,
          mapGet (mapSet st.batchQueue kq.1 kq.2) i.1 = none := by
        intro i hi
        rw [mapGet_mapSet_ne _ _ (hne i hi)]
        exact hfreshq i (List.mem_cons_of_mem kq hi)
      have hrest := ih ({ st with nextWaiter := st.nextWaiter + 1
                                  pendingQueries :=
                                    mapSet st.pendingQueries kq.1 [st.nextWaiter]
                                  batchQueue := mapSet st.batchQueue kq.1 kq.2
                                  batchTimeout := true }) hnd.2 ihp ihq
      refine ⟨by rw [hstep]; exact hrest.1, ?_, ?_⟩
      · rw [hstep, hrest.2.1]
        simp only [mapSet_length_of_get_none st.batchQueue kq.2 hq,
          List.length_cons]
        omega
      · intro _
        rw [hstep]
        exact enqueueAll_timeout_mono rest _ rfl

/-- Claim C2 counterexample: register `MAX_BATCH_SIZE` (= 500) distinct keys
within a single batch window, starting from a fresh service. Afterwards the
batch queue holds all 500 distinct keys, yet `processBatchQueue` has never
run (`flushes = 0`) and the window is still waiting on its armed timer —
there is no immediate flush on reaching the maximum, contradicting the
claim. -/
theorem c2_counterexample_no_flush_at_max :
    (enqueueAll initState bigItems).batchQueue.length = MAX_BATCH_SIZE ∧
    (enqueueAll initState bigItems).flushes = 0 ∧
    (enqueueAll initState bigItems).batchTimeout = true := by
  have hinj : Function.Injective bigKey := by
    intro i j h
    have hd := congrArg String.data h
    simp only [bigKey] at hd
    have hl := congrArg List.length hd
    simp only [List.length_replicate] at hl
    omega
  have hkeys : bigItems.map Prod.fst = (List.range MAX_BATCH_SIZE).map bigKey := by
    simp [bigItems, List.map_map, Function.comp_def]
  have hnd : (bigItems.map Prod.fst).Nodup := by
    rw [hkeys]
    exact (List.nodup_range MAX_BATCH_SIZE).map hinj
  have h := c2_no_early_flush_on_registration initState bigItems hnd
    (fun i _ => rfl) (fun i _ => rfl)
  have hlen : bigItems.length = MAX_BATCH_SIZE := by
    simp [bigItems]
  refine ⟨?_, h.1, h.2.2 ?_⟩
  · rw [h.2.1, hlen]
    rfl
  · intro he
    rw [he] at hlen
    simp [MAX_BATCH_SIZE] at hlen

/-- Witness for the amended C2 theorem at a small concrete input: one fresh
registration from the initial state leaves the flush count at zero, queues
one key, and arms the timer. -/
theorem c2_no_early_flush_witness :
    (enqueueAll initState [("a", dummyFn)]).flushes = 0 ∧
    (enqueueAll initState [("a", dummyFn)]).batchQueue.length = 1 ∧
    (enqueueAll initState [("a", dummyFn)]).batchTimeout = true := by
  have h := c2_no_early_flush_on_registration initState [("a", dummyFn)]
    (by simp) (fun i _ => rfl) (fun i _ => rfl)
  exact ⟨h.1, h.2.1, h.2.2 (by simp)⟩

theorem queueQuery_waiter (st : BQState) (fn : QueryFn) (k : String) :
    (queueQuery st fn k).2 = st.nextWaiter := by
  rcases hm : mapGet st.pendingQueries k with _ | ws <;> simp [queueQuery, hm]

theorem smartQuery_miss_fresh (store : DataStore) (now : Int) (st : BQState)
    (c : String) (p : List (String × JsonValue))
    (hmiss : mapGet st.cache (generateCacheKey c p) = none)
    (hfresh : mapGet st.pendingQueries (generateCacheKey c p) = none) :
    smartQuery store now st c p true true =
      ({ st with nextWaiter := st.nextWaiter + 1
                 pendingQueries := mapSet st.pendingQueries
                   (generateCacheKey c p) [st.nextWaiter]
                 batchQueue := mapSet st.batchQueue
                   (generateCacheKey c p) (smartQueryFn store c p true)
                 batchTimeout := true }, SmartOutcome.queued st.nextWaiter) := by
  simp [smartQuery, getFromCache, hmiss, JsonValue.isNotNull,
    queueQuery_of_fresh, hfresh, queueQuery_waiter]

theorem smartQuery_miss_member (store : DataStore) (now : Int) (st : BQState)
    (c : String) (p : List (String × JsonValue)) (ws : List Nat)
    (hmiss : mapGet st.cache (generateCacheKey c p) = none)
    (hmem : mapGet st.pendingQueries (generateCacheKey c p) = some ws) :
    smartQuery store now st c p true true =
      ({ st with nextWaiter := st.nextWaiter + 1
                 pendingQueries := mapSet st.pendingQueries
                   (generateCacheKey c p) (ws ++ [st.nextWaiter]) },
        SmartOutcome.queued st.nextWaiter) := by
  simp [smartQuery, getFromCache, hmiss, JsonValue.isNotNull,
    queueQuery_of_member, hmem, queueQuery_waiter]

theorem smartQueryN_join (store : DataStore) (now : Int) (c : String)
    (p : List (String × JsonValue)) :
    ∀ (n : Nat) (cache : Cache) (ws : List Nat)
      (bq : List (String × QueryFn)) (w f : Nat),
      mapGet cache (generateCacheKey c p) = none →
      smartQueryN store now c p n
        { cache := cache
          pendingQueries := [(generateCacheKey c p, ws)]
          batchQueue := bq, batchTimeout := true, nextWaiter := w
          flushes := f } =
        { cache := cache
          pendingQueries := [(generateCacheKey c p, ws ++ List.range' w n)]
          batchQueue := bq, batchTimeout := true, nextWaiter := w + n
          flushes := f } := by
  intro n
  induction n with
  | zero => intro cache ws bq w f _; simp [smartQueryN]
  | succ m ih =>
      intro cache ws bq w f hmiss
      rw [smartQueryN]
      rw [smartQuery_miss_member store now _ c p ws hmiss
        (by simp [mapGet])]
      simp only [mapSet, eq_self_iff_true, if_true]
      rw [ih cache (ws ++ [w]) bq (w + 1) f hmiss]
      have h1 : (ws ++ [w]) ++ List.range' (w + 1) m =
          ws ++ List.range' w (m + 1) := by
        rw [List.append_assoc, List.singleton_append, ← List.range'_succ w m 1]
      have h2 : w + 1 + m = w + (m + 1) := by omega
      rw [h1, h2]

/-- Claim C5: N >= 1 concurrent `smartQuery` calls with identical
(collection, queryParams), useCache and useBatching set, all issued after a
cache miss for the canonical key and before the batch window flushes,
produce exactly one data store query at flush time (`storeCalls = 1`), and
every one of the N registered waiters is settled with the same result. -/
theorem c5_dedup (store : DataStore) (now now' : Int) (st : BQState)
    (c : String) (p : List (String × JsonValue)) (n : Nat) (v : JsonValue)
    (hn : 1 ≤ n)
    (hmiss : mapGet st.cache (generateCacheKey c p) = none)
    (hpend : st.pendingQueries = [])
    (hqueue : st.batchQueue = [])
    (hstore : store.runQuery c p = Except.ok v) :
    (processBatchQueue now' (smartQueryN store now c p n st)).2.2 = 1 ∧
    (processBatchQueue now' (smartQueryN store now c p n st)).2.1 =
      (List.range' st.nextWaiter n).map (fun w => (w, Except.ok v)) ∧
    mapGet (processBatchQueue now' (smartQueryN store now c p n st)).1.cache
      (generateCacheKey c p) = some { data := v, timestamp := now' } := by
  obtain ⟨m, rfl⟩ : ∃ m, n = m + 1 := ⟨n - 1, by omega⟩
  have hshape : smartQueryN store now c p (m + 1) st =
      { cache := st.cache
        pendingQueries :=
          [(generateCacheKey c p, List.range' st.nextWaiter (m + 1))]
        batchQueue := [(generateCacheKey c p, smartQueryFn store c p true)]
        batchTimeout := true
        nextWaiter := st.nextWaiter + (m + 1)
        flushes := st.flushes } := by
    rw [smartQueryN]
    rw [smartQuery_miss_fresh store now st c p hmiss (by rw [hpend]; rfl)]
    rw [hpend, hqueue]
    simp only [mapSet]
    rw [smartQueryN_join store now c p m st.cache [st.nextWaiter] _
      (st.nextWaiter + 1) st.flushes hmiss]
    have h1 : [st.nextWaiter] ++ List.range' (st.nextWaiter + 1) m =
        List.range' st.nextWaiter (m + 1) := by
      rw [List.singleton_append, ← List.range'_succ st.nextWaiter m 1]
    have h2 : st.nextWaiter + 1 + m = st.nextWaiter + (m + 1) := by omega
    rw [h1, h2]
  rw [hshape]
  refine ⟨?_, ?_, ?_⟩ <;>
    simp [processBatchQueue, flushStep, mapGet, mapDelete, smartQueryFn,
      getCollection, JsonValue.isNotNull, hstore, setCache, mapGet_mapSet_self]

theorem c5_dedup_witness :
    (processBatchQueue 60 (smartQueryN abStore 0 "a" [] 2 initState)).2.2 = 1 ∧
    (processBatchQueue 60 (smartQueryN abStore 0 "a" [] 2 initState)).2.1 =
      [(0, Except.ok (JsonValue.arr [JsonValue.str "row"])),
       (1, Except.ok (JsonValue.arr [JsonValue.str "row"]))] ∧
    mapGet
      (processBatchQueue 60 (smartQueryN abStore 0 "a" [] 2 initState)).1.cache
      (generateCacheKey "a" []) =
      some { data := JsonValue.arr [JsonValue.str "row"], timestamp := 60 } := by
  have h := c5_dedup abStore 0 60 initState "a" []
    2 (JsonValue.arr [JsonValue.str "row"]) (by decide) rfl rfl rfl rfl
  exact ⟨h.1, by rw [h.2.1]; rfl, h.2.2⟩

/-- Claim C6: in one flush holding two distinct keys A and B, where the
query for A resolves with `vA` and the query for B rejects with `e`, every
waiter of A resolves with `vA` and every waiter of B rejects with `e`; A
has its result written to the cache at flush time, while the cache entry
state for B is exactly what it was before the flush (nothing written). -/
theorem c6_independent_failure (store : DataStore) (now' : Int)
    (cA cB : String) (pA pB : List (String × JsonValue)) (c₀ : Cache)
    (was wbs : List Nat) (vA : JsonValue) (e : StoreError)
    (nw f : Nat) (bt : Bool)
    (hne : generateCacheKey cA pA ≠ generateCacheKey cB pB)
    (hA : store.runQuery cA pA = Except.ok vA)
    (hB : store.runQuery cB pB = Except.error e) :
    (processBatchQueue now'
        { cache := c₀
          pendingQueries := [(generateCacheKey cA pA, was),
                             (generateCacheKey cB pB, wbs)]
          batchQueue := [(generateCacheKey cA pA, smartQueryFn store cA pA true),
                         (generateCacheKey cB pB, smartQueryFn store cB pB true)]
          batchTimeout := bt, nextWaiter := nw, flushes := f }).2.1 =
      was.map (fun w => (w, Except.ok vA)) ++
        wbs.map (fun w => (w, Except.error e)) ∧
    mapGet (processBatchQueue now'
        { cache := c₀
          pendingQueries := [(generateCacheKey cA pA, was),
                             (generateCacheKey cB pB, wbs)]
          batchQueue := [(generateCacheKey cA pA, smartQueryFn store cA pA true),
                         (generateCacheKey cB pB, smartQueryFn store cB pB true)]
          batchTimeout := bt, nextWaiter := nw, flushes := f }).1.cache
      (generateCacheKey cA pA) = some { data := vA, timestamp := now' } ∧
    mapGet (processBatchQueue now'
        { cache := c₀
          pendingQueries := [(generateCacheKey cA pA, was),
                             (generateCacheKey cB pB, wbs)]
          batchQueue := [(generateCacheKey cA pA, smartQueryFn store cA pA true),
                         (generateCacheKey cB pB, smartQueryFn store cB pB true)]
          batchTimeout := bt, nextWaiter := nw, flushes := f }).1.cache
      (generateCacheKey cB pB) = mapGet c₀ (generateCacheKey cB pB) := by
  refine ⟨?_, ?_, ?_⟩ <;>
    simp [processBatchQueue, flushStep, mapGet, mapDelete, smartQueryFn,
      getCollection, JsonValue.isNotNull, hA, hB, setCache, hne, Ne.symm hne,
      mapGet_mapSet_self, mapGet_mapSet_ne _ _ (Ne.symm hne)]

theorem c6_independent_failure_witness :
    (processBatchQueue 70
        { cache := []
          pendingQueries := [(generateCacheKey "a" [], [0]),
                             (generateCacheKey "b" [], [1])]
          batchQueue := [(generateCacheKey "a" [], smartQueryFn abStore "a" [] true),
                         (generateCacheKey "b" [], smartQueryFn abStore "b" [] true)]
          batchTimeout := true, nextWaiter := 2, flushes := 0 }).2.1 =
      [(0, Except.ok (JsonValue.arr [JsonValue.str "row"])),
       (1, Except.error { message := "unavailable" })] ∧
    mapGet (processBatchQueue 70
        { cache := []
          pendingQueries := [(generateCacheKey "a" [], [0]),
                             (generateCacheKey "b" [], [1])]
          batchQueue := [(generateCacheKey "a" [], smartQueryFn abStore "a" [] true),
                         (generateCacheKey "b" [], smartQueryFn abStore "b" [] true)]
          batchTimeout := true, nextWaiter := 2, flushes := 0 }).1.cache
      (generateCacheKey "b" []) = none := by
  have h := c6_independent_failure abStore 70 "a" "b" [] [] [] [0] [1]
    (JsonValue.arr [JsonValue.str "row"]) { message := "unavailable" }
    2 0 true (by decide) rfl rfl
  exact ⟨by rw [h.1]; rfl, h.2.2.trans rfl⟩

theorem mapGet_eq_none_of_not_mem {α : Type} (m : List (String × α))
    {k : String} (h : k ∉ m.map Prod.fst) : mapGet m k = none := by
  induction m with
  | nil => rfl
  | cons p rest ih =>
      simp only [List.map_cons, List.mem_cons, not_or] at h
      simp only [mapGet, if_neg (fun hh : p.1 = k => h.1 hh.symm)]
      exact ih h.2

theorem flush_resolution_ids :
    ∀ (queue : List (String × QueryFn)) (now : Int) (st : BQState)
      (res : List (Nat × Except StoreError JsonValue)) (calls : Nat),
      st.pendingQueries.map Prod.fst = queue.map Prod.fst →
      (queue.map Prod.fst).Nodup →
      ((queue.foldl (flushStep now) (st, res, calls)).2.1).map Prod.fst =
        res.map Prod.fst ++ st.pendingQueries.flatMap Prod.snd := by
  intro queue
  induction queue with
  | nil =>
      intro now st res calls halign _
      have : st.pendingQueries = [] := List.map_eq_nil_iff.mp halign
      simp [this]
  | cons q rest ih =>
      intro now st res calls halign hnd
      cases hpq : st.pendingQueries with
      | nil => rw [hpq] at halign; simp at halign
      | cons g ps =>
          rw [hpq] at halign
          simp only [List.map_cons, List.cons.injEq] at halign
          simp only [List.map_cons, List.nodup_cons] at hnd
          have hkey : g.1 = q.1 := halign.1
          have hnotps : q.1 ∉ ps.map Prod.fst := by
            rw [halign.2]; exact hnd.1
          have hstep : flushStep now (st, res, calls) q =
              ({ st with pendingQueries := ps
                         cache := (q.2 now st.cache).cache },
                res ++ g.2.map (fun w => (w, (q.2 now st.cache).outcome)),
                calls + (q.2 now st.cache).storeCalls) := by
            simp only [flushStep, hpq]
            rw [show mapGet (g :: ps) q.1 = some g.2 by
                simp [mapGet, hkey]]
            rw [show mapDelete (g :: ps) q.1 = ps by
                simp [mapDelete, hkey,
                  mapDelete_of_get_none ps (mapGet_eq_none_of_not_mem ps hnotps)]]
            rfl
          rw [List.foldl_cons, hstep]
          rw [ih now _ _ _ (by simpa using halign.2) hnd.2]
          simp [hpq, List.append_assoc, List.map_map, Function.comp_def]

/-- Claim C10: `clearCache` empties only the cache map — the pending
groups, the batch queue and the armed timer flag are untouched — and the
flush that follows still settles exactly the waiters that were pending
(one settlement per registered waiter, in order), and a successful query
writes its result into the now-empty cache. The alignment hypotheses are
the invariants `queueQuery` maintains for the window: the pending groups
are exactly the queued keys, without duplicates. -/
theorem c10_clear_cache_frame (st : BQState) (now : Int)
    (halign : st.pendingQueries.map Prod.fst = st.batchQueue.map Prod.fst)
    (hnd : (st.batchQueue.map Prod.fst).Nodup) :
    (clearCache st).pendingQueries = st.pendingQueries ∧
    (clearCache st).batchQueue = st.batchQueue ∧
    (clearCache st).batchTimeout = st.batchTimeout ∧
    (clearCache st).cache = [] ∧
    ((processBatchQueue now (clearCache st)).2.1).map Prod.fst =
      st.pendingQueries.flatMap Prod.snd ∧
    (∀ (store : DataStore) (c : String) (p : List (String × JsonValue))
        (v : JsonValue),
      st.batchQueue = [(generateCacheKey c p, smartQueryFn store c p true)] →
      store.runQuery c p = Except.ok v →
      mapGet (processBatchQueue now (clearCache st)).1.cache
        (generateCacheKey c p) = some { data := v, timestamp := now }) := by
  refine ⟨rfl, rfl, rfl, rfl, ?_, ?_⟩
  · simp only [processBatchQueue, clearCache]
    rw [flush_resolution_ids st.batchQueue now
      { cache := [], pendingQueries := st.pendingQueries, batchQueue := []
        batchTimeout := false, nextWaiter := st.nextWaiter
        flushes := st.flushes + 1 } [] 0 halign hnd]
    rfl
  · intro store c p v hbq hstore
    simp only [processBatchQueue, clearCache, hbq]
    simp [flushStep, smartQueryFn, getCollection, JsonValue.isNotNull, hstore,
      setCache, mapGet_mapSet_self]

theorem c10_clear_cache_frame_witness :
    (clearCache stC10).pendingQueries = [(generateCacheKey "a" [], [0])] ∧
    (clearCache stC10).cache = [] ∧
    ((processBatchQueue 80 (clearCache stC10)).2.1).map Prod.fst = [0] ∧
    mapGet (processBatchQueue 80 (clearCache stC10)).1.cache
      (generateCacheKey "a" []) =
      some { data := JsonValue.arr [JsonValue.str "row"], timestamp := 80 } := by
  have h := c10_clear_cache_frame stC10 80 rfl (by simp [stC10])
  exact ⟨h.1.trans rfl, h.2.2.2.1, by rw [h.2.2.2.2.1]; rfl,
    h.2.2.2.2.2 abStore "a" [] (JsonValue.arr [JsonValue.str "row"]) rfl rfl⟩

theorem collectUncached_nil_cache (now : Int) (all : List DocRequest) :
    ∀ (l : List DocRequest) (results : List (Option JsonValue)),
      collectUncached now true all l [] results =
        ([], results, l.map (fun r => (r, jsIndexOf all r))) := by
  intro l
  induction l with
  | nil => intro results; rfl
  | cons r rest ih =>
      intro results
      simp [collectUncached, getFromCache, mapGet, JsonValue.isNotNull, ih]

theorem map_jsIndexOf_nodup :
    ∀ (l : List DocRequest), l.Nodup →
      l.map (jsIndexOf l) = List.range l.length := by
  intro l
  induction l with
  | nil => intro _; rfl
  | cons x rest ih =>
      intro hnd
      simp only [List.nodup_cons] at hnd
      have hhead : jsIndexOf (x :: rest) x = 0 := by simp [jsIndexOf]
      have hstep : rest.map (jsIndexOf (x :: rest)) =
          (rest.map (jsIndexOf rest)).map (fun i => i + 1) := by
        rw [List.map_map]
        apply List.map_congr_left
        intro y hy
        have hxy : ¬ (x = y) := fun he => hnd.1 (he ▸ hy)
        simp [jsIndexOf, hxy, Function.comp]
      rw [List.map_cons, hhead, hstep, ih hnd.2, List.length_cons,
        List.range_succ_eq_map]

theorem chunksOfAux_flatten {α : Type} (n : Nat) (hn : 1 ≤ n) :
    ∀ (fuel : Nat) (l : List α), l.length ≤ fuel →
      (chunksOfAux n fuel l).flatten = l := by
  intro fuel
  induction fuel with
  | zero =>
      intro l hl
      cases l with
      | nil => rfl
      | cons x rest => simp at hl
  | succ m ih =>
      intro l hl
      cases l with
      | nil => rfl
      | cons x rest =>
          simp only [chunksOfAux, List.flatten_cons]
          rw [ih ((x :: rest).drop n)
            (by simp only [List.length_drop, List.length_cons] at *; omega)]
          exact List.take_append_drop n (x :: rest)

theorem fold_failed_chunks (store : DataStore) (now : Int) (useCache : Bool)
    (e : StoreError) (hfail : ∀ refs, store.getAll refs = Except.error e) :
    ∀ (chunks : List (List (DocRequest × Nat))) (cache : Cache)
      (rs : List (Option JsonValue)),
      chunks.foldl (processChunk store now useCache) (cache, rs) =
        (cache, (chunks.flatten.map Prod.snd).foldl
          (fun l i => listSet l i (some JsonValue.null)) rs) := by
  intro chunks
  induction chunks with
  | nil => intro cache rs; rfl
  | cons ch rest ih =>
      intro cache rs
      simp only [List.foldl_cons]
      rw [show processChunk store now useCache (cache, rs) ch =
          (cache, ch.foldl
            (fun l rq => listSet l rq.2 (some JsonValue.null)) rs) by
        simp [processChunk, hfail]]
      rw [ih]
      simp [List.flatten_cons, List.map_append, List.foldl_append,
        List.foldl_map]

theorem fold_range_listSet {α : Type} (n : Nat) (v : α) :
    (List.range n).foldl (fun l i => listSet l i (some v))
      (List.replicate n (none : Option α)) = List.replicate n (some v) := by
  apply List.ext_getElem?
  intro j
  rw [foldl_listSet_getElem?]
  by_cases hj : j < n
  · simp [hj, List.mem_range, List.getElem?_replicate]
  · have h1 : (List.replicate n (none : Option α))[j]? = none :=
      List.getElem?_eq_none (by simp only [List.length_replicate]; omega)
    have h2 : (List.replicate n (some v))[j]? = none :=
      List.getElem?_eq_none (by simp only [List.length_replicate]; omega)
    simp [hj, List.mem_range, h1, h2]

/-- Claim C3 as amended: when the multi-get for a chunk of cache-miss
requests fails, `batchGetDocuments` catches the StoreError inside its loop:
the call still resolves (no error propagates to the callers), every request
slot of the failed chunk holds the substituted value `null`, and no cache
entry is written for any request of the failed chunk. -/
theorem c3_chunk_error_substitutes_null (store : DataStore) (now : Int)
    (reqs : List DocRequest) (e : StoreError)
    (hfail : ∀ refs, store.getAll refs = Except.error e)
    (hne : reqs ≠ []) (hnd : reqs.Nodup) :
    (batchGetDocuments store now [] reqs true).1 =
      Except.ok (List.replicate reqs.length (some JsonValue.null)) ∧
    (batchGetDocuments store now [] reqs true).2.1 = [] := by
  have hu : (reqs.map (fun r => (r, jsIndexOf reqs r))) ≠ [] := by
    simpa using hne
  have hbs : 1 ≤ min MAX_BATCH_SIZE
      (reqs.map (fun r => (r, jsIndexOf reqs r))).length := by
    have : reqs.length ≠ 0 := fun h => hne (List.length_eq_zero.mp h)
    simp only [MAX_BATCH_SIZE, List.length_map]
    omega
  have hflat : (chunksOf (min MAX_BATCH_SIZE
      (reqs.map (fun r => (r, jsIndexOf reqs r))).length)
      (reqs.map (fun r => (r, jsIndexOf reqs r)))).flatten =
      reqs.map (fun r => (r, jsIndexOf reqs r)) :=
    chunksOfAux_flatten _ hbs _ _ (Nat.le_refl _)
  have hsnd : (reqs.map (fun r => (r, jsIndexOf reqs r))).map Prod.snd =
      List.range reqs.length := by
    rw [List.map_map]
    simpa [Function.comp_def] using map_jsIndexOf_nodup reqs hnd
  simp only [batchGetDocuments, collectUncached_nil_cache now reqs reqs,
    List.isEmpty_eq_false.mpr hu, Bool.false_eq_true, if_false,
    fold_failed_chunks store now true e hfail, chunksOf, List.length_map]
  constructor
  · rw [show (chunksOfAux (min MAX_BATCH_SIZE reqs.length) reqs.length
        (reqs.map (fun r => (r, jsIndexOf reqs r)))) = chunksOf (min MAX_BATCH_SIZE
        (reqs.map (fun r => (r, jsIndexOf reqs r))).length)
        (reqs.map (fun r => (r, jsIndexOf reqs r))) by
      simp [chunksOf, List.length_map]]
    rw [hflat, hsnd, fold_range_listSet]
  · trivial

/-- Claim C3 counterexample: one uncached request whose (single-request)
chunk multi-get fails. The call resolves successfully with the substituted
value `null` in the request slot — the StoreError does not propagate to the
caller — and the cache stays empty; the claim asserts the caller observes
the error instead. -/
theorem c3_counterexample_error_not_propagated :
    batchGetDocuments downStore 0 []
      [{ collection := "inquiries", docId := "q1" }] true =
      (Except.ok [some JsonValue.null], [], 1) := rfl

/-- Witness for the amended C3 theorem at a concrete input: a single
request against the failing store yields a resolved `[null]` and an
unchanged empty cache. -/
theorem c3_chunk_error_substitutes_null_witness :
    (batchGetDocuments downStore 0 []
      [{ collection := "inquiries", docId := "q1" }] true).1 =
      Except.ok [some JsonValue.null] ∧
    (batchGetDocuments downStore 0 []
      [{ collection := "inquiries", docId := "q1" }] true).2.1 = [] := by
  have h := c3_chunk_error_substitutes_null downStore 0
    [{ collection := "inquiries", docId := "q1" }]
    { message := "unavailable" } (fun _ => rfl) (by simp) (by simp)
  exact ⟨h.1.trans rfl, h.2⟩
